import Mathlib

/-!
Verification development for the scriberai streaming server
(`src/websocket/src/server.ts`).  The per-session streaming state machine
is embedded shallowly: `Buffer` values become byte lists (`List Nat`),
the mutable session object becomes explicit state passing, and the
fallible external collaborators (transcription call, durable append)
become oracle inputs to the pure drain function.
-/

namespace ScriberAI

/-- A Node `Buffer`, modelled as a list of bytes. -/
abbrev Bytes := List Nat

/-- `interface RingBuffer` (server.ts lines 43-47): fixed-capacity circular
store with a `data` array, its `capacity`, and the current write `index`. -/
structure RingBuffer where
  data : List Bytes
  capacity : Nat
  index : Nat
  deriving Repr, DecidableEq

/-- `createRingBuffer` (lines 72-78): all slots initialised to the empty
buffer (`Buffer.alloc(0)`), write index 0. -/
def createRingBuffer (size : Nat) : RingBuffer :=
  { data := List.replicate size [], capacity := size, index := 0 }

/-- `ringPush` (lines 80-83): store the value at the current write index and
advance the index modulo capacity. -/
def ringPush (ring : RingBuffer) (value : Bytes) : RingBuffer :=
  { ring with
    data := ring.data.set ring.index value
    index := (ring.index + 1) % ring.capacity }

/-- `ringToArray` (lines 85-93): walk the `capacity` slots starting at the
write index, keeping only non-empty chunks (`chunk.length > 0`). -/
def ringToArray (ring : RingBuffer) : List Bytes :=
  ((List.range ring.capacity).map
      (fun i => ring.data.getD ((ring.index + i) % ring.capacity) [])).filter
    (fun chunk => decide (0 < chunk.length))

/-- The raw slot read-out of `ringToArray` before its non-empty filter:
slot contents in the chronological order the loop of lines 87-91 visits
them. -/
def ringReadout (ring : RingBuffer) : List Bytes :=
  (List.range ring.capacity).map
    (fun i => ring.data.getD ((ring.index + i) % ring.capacity) [])

/-- `interface PendingBatch` (lines 49-52). -/
structure PendingBatch where
  audio : Bytes
  timestamp : Nat
  deriving Repr, DecidableEq

/-- Capture mode of a session (`"mic" | "tab"`, line 61). -/
inductive Mode where
  | mic
  | tab
  deriving Repr, DecidableEq

/-- The enqueue logic of the `audio_chunk` handler (lines 371-378): if the
pending queue is at `maxPending` capacity, `shift()` the oldest entry,
then `push` the new batch at the back. -/
def bpEnqueue (maxPending : Nat) (queue : List PendingBatch) (batch : PendingBatch) :
    List PendingBatch :=
  (if maxPending ≤ queue.length then queue.drop 1 else queue) ++ [batch]

/-- The adaptive batch sizing of `processPendingQueue` (lines 184-189):
raise `batchMs` by 5000 when the last Gemini latency exceeded 20000ms and
the threshold is below 45000; lower it by 5000 when the latency was under
8000ms and the threshold is above 15000. -/
def updateThreshold (batchMs : Nat) (lastGeminiLatency : Nat) : Nat :=
  if 20000 < lastGeminiLatency ∧ batchMs < 45000 then
    batchMs + 5000
  else if lastGeminiLatency < 8000 ∧ 15000 < batchMs then
    batchMs - 5000
  else
    batchMs

/-- Threshold reached after a list of latency samples, starting from the
initial `batchMs: 30000` of `start_session` (line 267). -/
def thresholdAfter (samples : List Nat) : Nat :=
  samples.foldl updateThreshold 30000

/-- `interface SessionMemoryState` (lines 54-64). -/
structure SessionMemoryState where
  ring : RingBuffer
  batchMs : Nat
  lastGeminiLatency : Nat
  pendingBatches : List PendingBatch
  maxPending : Nat
  userId : String
  mode : Mode
  dbChunkIndex : Nat
  accumulatedMs : Nat
  deriving Repr, DecidableEq

/-- The request `transcribeChunk` (lines 98-119) hands to the Gemini model:
the base64 audio as inline data with mime type `audio/webm`, plus an
instruction text. -/
structure TranscribeRequest where
  audio : Bytes
  mimeType : String
  instruction : String
  deriving Repr, DecidableEq

/-- The instruction text of line 109.  It is a fixed string: `transcribeChunk`
receives only the audio buffer, so nothing about the session (in particular
its mode) reaches the prompt. -/
def transcribeInstruction : String :=
  "Transcribe this audio. Return ONLY the raw transcript."

/-- The request built for one dequeued batch.  `processPendingQueue`
(line 179) calls `transcribeChunk(batch.audio)`; the session's `mode`
is in scope there but is not passed on, so the request is the same for
`mic` and `tab` sessions. -/
def buildTranscribeRequest (mode : Mode) (audio : Bytes) : TranscribeRequest :=
  { audio := audio, mimeType := "audio/webm", instruction := transcribeInstruction }

/-- Outcome of `transcribeChunk` (lines 98-119) as a function of the
external call's result.  With no model configured it returns the literal
`"(Gemini unavailable)"`; a thrown error is caught and becomes `null`
(`none`); an ok response is trimmed and an empty trim also becomes
`null`. -/
def transcribeChunk (modelAvailable : Bool) (response : Except Unit String) :
    Option String :=
  if modelAvailable = false then some "(Gemini unavailable)"
  else
    match response with
    | Except.error _ => none
    | Except.ok raw =>
        let text := raw.trim
        if 0 < text.length then some text else none

/-- One durable `TranscriptChunk` row as written by line 191-199:
per-session index and text (ids and timestamps elided). -/
structure TranscriptChunkRow where
  index : Nat
  text : String
  deriving Repr, DecidableEq

/-- The outbound socket events of the streaming path. -/
inductive OutEvent where
  | transcriptionUpdate (partialText : String)
  | diagnostics (batchMs lastGeminiLatency queueLength : Nat)
  | sessionError (message : String)
  deriving Repr, DecidableEq

/-- The per-session fields `processPendingQueue` mutates. -/
structure DrainState where
  dbChunkIndex : Nat
  batchMs : Nat
  lastGeminiLatency : Nat
  deriving Repr, DecidableEq

/-- Oracle for one iteration of the drain loop: the dequeued batch's audio,
whether a Gemini model is configured, the transcription call's outcome,
its measured latency, and whether the `prisma.transcriptChunk.create`
append succeeds. -/
structure BatchOutcome where
  audio : Bytes
  modelAvailable : Bool
  response : Except Unit String
  latency : Nat
  appendOk : Bool

/-- What a drain produced: final mutable state, the rows appended, the
transcription requests issued, and the events emitted. -/
structure DrainResult where
  state : DrainState
  rows : List TranscriptChunkRow
  requests : List TranscribeRequest
  events : List OutEvent
  deriving Repr, DecidableEq

/-- `processPendingQueue` (lines 166-219) run sequentially to completion:
the `while` loop shifts one batch per iteration; each iteration calls the
transcription collaborator (falling back to `"(unintelligible)"` on a
`null` result), stores the latency, applies the adaptive batch sizing,
then attempts the durable append.  On append success the chunk index
advances and `transcription_update` plus `diagnostics` are emitted; on an
append failure the `catch` emits `session_error`, the index is left
unchanged, and the loop continues with the next batch.  One `BatchOutcome`
drives each iteration; `mode` mirrors the session's mode, which the loop
has in scope but never uses. -/
def processPendingQueue (mode : Mode) (st : DrainState) :
    List BatchOutcome → DrainResult
  | [] => { state := st, rows := [], requests := [], events := [] }
  | o :: rest =>
      let req := buildTranscribeRequest mode o.audio
      let text := (transcribeChunk o.modelAvailable o.response).getD "(unintelligible)"
      let batchMs := updateThreshold st.batchMs o.latency
      if o.appendOk then
        let st1 : DrainState :=
          { dbChunkIndex := st.dbChunkIndex + 1, batchMs := batchMs,
            lastGeminiLatency := o.latency }
        let r := processPendingQueue mode st1 rest
        { state := r.state
          rows := { index := st.dbChunkIndex, text := text } :: r.rows
          requests := req :: r.requests
          events := OutEvent.transcriptionUpdate text ::
            OutEvent.diagnostics batchMs o.latency rest.length :: r.events }
      else
        let st1 : DrainState :=
          { dbChunkIndex := st.dbChunkIndex, batchMs := batchMs,
            lastGeminiLatency := o.latency }
        let r := processPendingQueue mode st1 rest
        { state := r.state
          rows := r.rows
          requests := req :: r.requests
          events := OutEvent.sessionError "Failed to save transcript chunk." :: r.events }

/-- The `audio_chunk` handler body for an existing session (lines 360-381):
push the fragment into the ring, add the fixed 3000ms estimate to
`accumulatedMs`; when the threshold is reached, snapshot the ring,
concatenate (`Buffer.concat`), reset `accumulatedMs` to 0, and enqueue the
batch (evicting the oldest entry when at `maxPending`).  The spawning of
the drain (`void processPendingQueue(...)`, line 380) is modelled by
`DispatchStep.flush` below. -/
def handleAudioChunk (s : SessionMemoryState) (chunk : Bytes) (now : Nat) :
    SessionMemoryState :=
  let ring1 := ringPush s.ring chunk
  let acc1 := s.accumulatedMs + 3000
  if s.batchMs ≤ acc1 then
    { s with
      ring := ring1
      accumulatedMs := 0
      pendingBatches := bpEnqueue s.maxPending s.pendingBatches
        { audio := (ringToArray ring1).flatten, timestamp := now } }
  else
    { s with ring := ring1, accumulatedMs := acc1 }

/-- The `sessions` map (line 67), modelled as an association list. -/
abbrev SessionsMap := List (String × SessionMemoryState)

/-- The full `audio_chunk` handler (lines 349-390): look the session up in
the `sessions` map; when absent, return with no mutation and no emit
(lines 355-358); otherwise run the handler body on that session's state.
The handler itself emits nothing on the success path. -/
def audioChunkEvent (sessions : SessionsMap) (sessionId : String) (chunk : Bytes)
    (now : Nat) : SessionsMap × List OutEvent :=
  match sessions.find? (fun p => p.1 == sessionId) with
  | none => (sessions, [])
  | some (_, s) =>
      (sessions.map
        (fun p => if p.1 == sessionId then (p.1, handleAudioChunk s chunk now) else p),
       [])

/-- The `MeetingSummary` table, as rows of (meetingSessionId, summaryText);
ids and other columns elided. -/
abbrev SummaryTable := List (String × String)

/-- The summary step of the `stop_session` handler (lines 441-458):
`findUnique` on `meetingSessionId`; `create` a new row when absent,
`update` the existing row's `summaryText` in place when present. -/
def upsertSummary (db : SummaryTable) (sessionId text : String) : SummaryTable :=
  match db.find? (fun p => p.1 == sessionId) with
  | none => db ++ [(sessionId, text)]
  | some _ => db.map (fun p => if p.1 == sessionId then (p.1, text) else p)

/-- Interleaving model of one session's flush/drain concurrency.
`pendingBatches` is the session's queue; `activeDrains` counts the
invocations of `processPendingQueue` that have started and not yet
returned. -/
structure DispatchState where
  pendingBatches : List PendingBatch
  activeDrains : Nat
  deriving Repr, DecidableEq

/-- Atomic steps of the `audio_chunk` / `processPendingQueue` interplay for
one session.  `flush` is lines 365-381: a threshold-reaching ingest
enqueues the batch and unconditionally invokes `processPendingQueue`
(line 380 has no guard, and `SessionMemoryState` carries no drain flag),
so a drain becomes active regardless of how many are already running.
`drainShift` is one loop iteration of lines 173-175: an active drain
shifts the head batch and then suspends at `await transcribeChunk`.
`drainReturn` is the loop exit at line 173 when the queue is empty. -/
inductive DispatchStep : DispatchState → DispatchState → Prop where
  | flush (s : DispatchState) (batch : PendingBatch) :
      DispatchStep s
        { pendingBatches := bpEnqueue 3 s.pendingBatches batch
          activeDrains := s.activeDrains + 1 }
  | drainShift (s : DispatchState) (h : 0 < s.activeDrains)
      (hq : s.pendingBatches ≠ []) :
      DispatchStep s
        { pendingBatches := s.pendingBatches.drop 1
          activeDrains := s.activeDrains }
  | drainReturn (s : DispatchState) (h : 0 < s.activeDrains)
      (hq : s.pendingBatches = []) :
      DispatchStep s
        { pendingBatches := s.pendingBatches
          activeDrains := s.activeDrains - 1 }

/-- Reachability in the dispatch model from the fresh-session state
(empty queue, no active drain). -/
def DispatchReachable (s : DispatchState) : Prop :=
  Relation.ReflTransGen DispatchStep { pendingBatches := [], activeDrains := 0 } s

/-! ## Adaptive threshold (claim C3) -/

/-- One latency sample keeps a well-formed threshold (in bounds and a
multiple of the 5000 step) well-formed. -/
lemma updateThreshold_inv (t l : Nat) (h1 : 15000 ≤ t) (h2 : t ≤ 45000)
    (h3 : 5000 ∣ t) :
    15000 ≤ updateThreshold t l ∧ updateThreshold t l ≤ 45000 ∧
      5000 ∣ updateThreshold t l := by
  obtain ⟨k, hk⟩ := h3
  subst hk
  unfold updateThreshold
  by_cases c1 : 20000 < l ∧ 5000 * k < 45000
  · rw [if_pos c1]
    exact ⟨by omega, by omega, ⟨k + 1, by ring⟩⟩
  · rw [if_neg c1]
    by_cases c2 : l < 8000 ∧ 15000 < 5000 * k
    · rw [if_pos c2]
      exact ⟨by omega, by omega, ⟨k - 1, by omega⟩⟩
    · rw [if_neg c2]
      exact ⟨h1, h2, ⟨k, rfl⟩⟩

/-- The threshold after any sample sequence is in bounds and a multiple of
the step. -/
lemma thresholdAfter_inv (samples : List Nat) :
    15000 ≤ thresholdAfter samples ∧ thresholdAfter samples ≤ 45000 ∧
      5000 ∣ thresholdAfter samples := by
  suffices h : ∀ t, 15000 ≤ t → t ≤ 45000 → 5000 ∣ t →
      15000 ≤ samples.foldl updateThreshold t ∧
        samples.foldl updateThreshold t ≤ 45000 ∧
        5000 ∣ samples.foldl updateThreshold t by
    exact h 30000 (by norm_num) (by norm_num) (by norm_num)
  induction samples with
  | nil => intro t h1 h2 h3; exact ⟨h1, h2, h3⟩
  | cons l rest ih =>
      intro t h1 h2 h3
      obtain ⟨g1, g2, g3⟩ := updateThreshold_inv t l h1 h2 h3
      simpa using ih (updateThreshold t l) g1 g2 g3

/-- Claim C3: starting from the initial 30000, the batch threshold stays
within [15000, 45000] for every latency sample sequence, and a single
sample moves it by exactly 5000: up iff the latency exceeded 20000 with
the threshold below 45000, down iff the latency was below 8000 with the
threshold above 15000, and otherwise it is unchanged. -/
theorem adaptiveThresholdSpec :
    (∀ samples : List Nat,
        15000 ≤ thresholdAfter samples ∧ thresholdAfter samples ≤ 45000)
    ∧ (∀ t l : Nat, 15000 ≤ t →
        ((updateThreshold t l = t + 5000 ↔ (20000 < l ∧ t < 45000))
         ∧ (updateThreshold t l = t - 5000 ↔ (l < 8000 ∧ 15000 < t))
         ∧ (¬(20000 < l ∧ t < 45000) → ¬(l < 8000 ∧ 15000 < t) →
              updateThreshold t l = t))) := by
  constructor
  · intro samples
    exact ⟨(thresholdAfter_inv samples).1, (thresholdAfter_inv samples).2.1⟩
  · intro t l ht
    unfold updateThreshold
    by_cases c1 : 20000 < l ∧ t < 45000
    · rw [if_pos c1]
      exact ⟨by omega, by omega, by omega⟩
    · rw [if_neg c1]
      by_cases c2 : l < 8000 ∧ 15000 < t
      · rw [if_pos c2]
        exact ⟨by omega, by omega, by omega⟩
      · rw [if_neg c2]
        exact ⟨by omega, by omega, by omega⟩

/-- Witness for C3 at concrete inputs. -/
theorem adaptiveThresholdSpec_witness :
    (15000 ≤ thresholdAfter [25000, 5000, 5000, 5000, 5000]
      ∧ thresholdAfter [25000, 5000, 5000, 5000, 5000] ≤ 45000)
    ∧ (updateThreshold 30000 25000 = 30000 + 5000 ↔
        (20000 < 25000 ∧ 30000 < 45000)) :=
  ⟨adaptiveThresholdSpec.1 [25000, 5000, 5000, 5000, 5000],
   (adaptiveThresholdSpec.2 30000 25000 (by norm_num)).1⟩

/-! ## Backpressure queue (claim C4) -/

/-- Folding the drop-oldest enqueue from the empty queue keeps exactly the
last `M` enqueued batches, in order. -/
lemma bpEnqueue_foldl (M : Nat) (hM : 0 < M) (xs : List PendingBatch) :
    List.foldl (bpEnqueue M) [] xs = xs.drop (xs.length - M) := by
  induction xs using List.reverseRecOn with
  | nil => simp
  | append_singleton ys y ih =>
      rw [List.foldl_append, List.foldl_cons, List.foldl_nil, ih]
      by_cases hlen : M ≤ ys.length
      · have h1 : M ≤ (ys.drop (ys.length - M)).length := by
          rw [List.length_drop]; omega
        rw [bpEnqueue, if_pos h1, List.drop_drop]
        have h2 : (ys ++ [y]).length - M = (ys.length - M) + 1 := by
          rw [List.length_append]; simp; omega
        rw [h2, List.drop_append_of_le_length (by omega)]
      · push_neg at hlen
        have h0 : ys.length - M = 0 := by omega
        have h0' : (ys ++ [y]).length - M = 0 := by
          rw [List.length_append]; simp; omega
        rw [h0, h0', List.drop_zero, List.drop_zero, bpEnqueue,
          if_neg (by omega)]

/-- Claim C4: from the empty queue, the pending-batch queue never exceeds
capacity `M`; the queue always holds exactly the last `M` enqueued
batches, so the `(M+1)`-th enqueue evicts exactly the first batch. -/
theorem backpressureQueueBounded (M : Nat) (hM : 0 < M)
    (xs : List PendingBatch) :
    (List.foldl (bpEnqueue M) [] xs).length ≤ M
    ∧ List.foldl (bpEnqueue M) [] xs = xs.drop (xs.length - M)
    ∧ (xs.length = M + 1 → List.foldl (bpEnqueue M) [] xs = xs.tail) := by
  refine ⟨?_, bpEnqueue_foldl M hM xs, ?_⟩
  · rw [bpEnqueue_foldl M hM xs, List.length_drop]
    omega
  · intro hx
    rw [bpEnqueue_foldl M hM xs, hx]
    simp

/-- Witness for C4 at `M = 3` and four concrete batches: the first batch is
the one evicted. -/
theorem backpressureQueueBounded_witness :
    (List.foldl (bpEnqueue 3) []
        [⟨[1], 1⟩, ⟨[2], 2⟩, ⟨[3], 3⟩, ⟨[4], 4⟩]).length ≤ 3
    ∧ List.foldl (bpEnqueue 3) [] [⟨[1], 1⟩, ⟨[2], 2⟩, ⟨[3], 3⟩, ⟨[4], 4⟩]
        = [⟨[2], 2⟩, ⟨[3], 3⟩, ⟨[4], 4⟩] :=
  ⟨(backpressureQueueBounded 3 (by norm_num)
      [⟨[1], 1⟩, ⟨[2], 2⟩, ⟨[3], 3⟩, ⟨[4], 4⟩]).1,
   (backpressureQueueBounded 3 (by norm_num)
      [⟨[1], 1⟩, ⟨[2], 2⟩, ⟨[3], 3⟩, ⟨[4], 4⟩]).2.2 (by norm_num)⟩

/-! ## Drain loop (claims C2, C6, C8) -/

/-- The rows a drain appends carry consecutive indices starting at the
session's current chunk index, one per successful append, and the index
field advances by exactly the number of successful appends. -/
lemma processPendingQueue_rows_index (mode : Mode) :
    ∀ (outs : List BatchOutcome) (st : DrainState),
      (processPendingQueue mode st outs).rows.map TranscriptChunkRow.index
          = List.range' st.dbChunkIndex (outs.countP (fun o => o.appendOk))
      ∧ (processPendingQueue mode st outs).state.dbChunkIndex
          = st.dbChunkIndex + outs.countP (fun o => o.appendOk) := by
  intro outs
  induction outs with
  | nil =>
      intro st
      simp [processPendingQueue]
  | cons o rest ih =>
      intro st
      by_cases ho : o.appendOk
      · have h1 := ih ⟨st.dbChunkIndex + 1,
          updateThreshold st.batchMs o.latency, o.latency⟩
        simp only [processPendingQueue, ho, if_true, List.map_cons, h1.1, h1.2,
          List.countP_cons, ho, if_pos]
        constructor
        · rw [List.range'_succ]
        · omega
      · have hb : o.appendOk = false := by
          cases h : o.appendOk
          · rfl
          · exact absurd h ho
        have h1 := ih ⟨st.dbChunkIndex,
          updateThreshold st.batchMs o.latency, o.latency⟩
        simp only [processPendingQueue, hb, Bool.false_eq_true, if_false,
          List.countP_cons, h1.1, h1.2]
        simp

/-- Claim C2: across a sequential drain the chunk index advances exactly on
successful appends, so the appended rows carry the gapless, duplicate-free
index sequence `st.dbChunkIndex, +1, +2, ...` — from a fresh session,
exactly `0, 1, 2, ...`.  A failed append emits the session-scoped
`session_error` event, appends no row, leaves the index unchanged, and
the loop continues with the remaining batches. -/
theorem chunkIndicesGapless (mode : Mode) (st : DrainState)
    (outs : List BatchOutcome) :
    ((processPendingQueue mode st outs).rows.map TranscriptChunkRow.index
        = List.range' st.dbChunkIndex (outs.countP (fun o => o.appendOk)))
    ∧ ((processPendingQueue mode st outs).state.dbChunkIndex
        = st.dbChunkIndex + outs.countP (fun o => o.appendOk))
    ∧ ((processPendingQueue mode { st with dbChunkIndex := 0 } outs).rows.map
          TranscriptChunkRow.index
        = List.range (outs.countP (fun o => o.appendOk)))
    ∧ (∀ (a : Bytes) (mav : Bool) (resp : Except Unit String) (lat : Nat)
          (rest : List BatchOutcome),
        processPendingQueue mode st
            ({ audio := a, modelAvailable := mav, response := resp,
               latency := lat, appendOk := false } :: rest)
          = { state := (processPendingQueue mode
                { dbChunkIndex := st.dbChunkIndex,
                  batchMs := updateThreshold st.batchMs lat,
                  lastGeminiLatency := lat } rest).state
              rows := (processPendingQueue mode
                { dbChunkIndex := st.dbChunkIndex,
                  batchMs := updateThreshold st.batchMs lat,
                  lastGeminiLatency := lat } rest).rows
              requests := buildTranscribeRequest mode a ::
                (processPendingQueue mode
                  { dbChunkIndex := st.dbChunkIndex,
                    batchMs := updateThreshold st.batchMs lat,
                    lastGeminiLatency := lat } rest).requests
              events := OutEvent.sessionError "Failed to save transcript chunk." ::
                (processPendingQueue mode
                  { dbChunkIndex := st.dbChunkIndex,
                    batchMs := updateThreshold st.batchMs lat,
                    lastGeminiLatency := lat } rest).events }) := by
  refine ⟨(processPendingQueue_rows_index mode outs st).1,
    (processPendingQueue_rows_index mode outs st).2, ?_, ?_⟩
  · rw [(processPendingQueue_rows_index mode outs
      { st with dbChunkIndex := 0 }).1]
    rw [List.range_eq_range']
  · intro a mav resp lat rest
    rfl

/-- Claim C6: when the transcription collaborator fails or returns an empty
result (`transcribeChunk` yields `none`) and the durable append succeeds,
the appended row's text is exactly the `"(unintelligible)"` placeholder,
the chunk index advances by exactly 1, and the emitted events are the
ordinary update and diagnostics — no error event and no retry. -/
theorem placeholderOnTranscriptionFailure (mode : Mode) (st : DrainState)
    (a : Bytes) (resp : Except Unit String) (lat : Nat)
    (h : transcribeChunk true resp = none) :
    processPendingQueue mode st
        [{ audio := a, modelAvailable := true, response := resp,
           latency := lat, appendOk := true }]
      = { state := { dbChunkIndex := st.dbChunkIndex + 1,
                     batchMs := updateThreshold st.batchMs lat,
                     lastGeminiLatency := lat }
          rows := [{ index := st.dbChunkIndex, text := "(unintelligible)" }]
          requests := [buildTranscribeRequest mode a]
          events := [OutEvent.transcriptionUpdate "(unintelligible)",
                     OutEvent.diagnostics (updateThreshold st.batchMs lat) lat 0] } := by
  simp [processPendingQueue, h]

/-- Witness for C6: a failed transcription call on a concrete batch. -/
theorem placeholderOnTranscriptionFailure_witness :
    processPendingQueue Mode.mic
        { dbChunkIndex := 0, batchMs := 30000, lastGeminiLatency := 0 }
        [{ audio := [1], modelAvailable := true, response := Except.error (),
           latency := 10000, appendOk := true }]
      = { state := { dbChunkIndex := 1, batchMs := 30000, lastGeminiLatency := 10000 }
          rows := [{ index := 0, text := "(unintelligible)" }]
          requests := [buildTranscribeRequest Mode.mic [1]]
          events := [OutEvent.transcriptionUpdate "(unintelligible)",
                     OutEvent.diagnostics 30000 10000 0] } :=
  placeholderOnTranscriptionFailure Mode.mic ⟨0, 30000, 0⟩
    [1] (Except.error ()) 10000 rfl

/-- Counterexample to C8 as stated: at a concrete audio payload the request
built for a `tab` (multi-party) session is identical to the one built for
a `mic` session, and its instruction is the fixed transcript-only string —
no speaker-labeled diarization is requested and nothing in the prompt
depends on the mode. -/
theorem modeDependentInstruction_counterexample :
    buildTranscribeRequest Mode.tab [0] = buildTranscribeRequest Mode.mic [0]
    ∧ (buildTranscribeRequest Mode.tab [0]).instruction
        = "Transcribe this audio. Return ONLY the raw transcript." :=
  ⟨rfl, rfl⟩

/-- Amended C8: for every dequeued batch the dispatcher issues one request
to the transcription collaborator carrying the raw audio payload, the
`audio/webm` mime type, and the fixed instruction text, identically for
`mic` and `tab` sessions. -/
theorem fixedInstructionPerBatch (mode : Mode) (st : DrainState)
    (outs : List BatchOutcome) :
    ((processPendingQueue mode st outs).requests
        = outs.map (fun o => buildTranscribeRequest mode o.audio))
    ∧ ((processPendingQueue mode st outs).requests
        = outs.map (fun o => TranscribeRequest.mk o.audio "audio/webm" transcribeInstruction))
    ∧ ((processPendingQueue Mode.tab st outs).requests
        = (processPendingQueue Mode.mic st outs).requests) := by
  have key : ∀ (m : Mode) (l : List BatchOutcome) (s : DrainState),
      (processPendingQueue m s l).requests
        = l.map (fun o => TranscribeRequest.mk o.audio "audio/webm" transcribeInstruction) := by
    intro m l
    induction l with
    | nil => intro s; rfl
    | cons o rest ih =>
        intro s
        by_cases ho : o.appendOk
        · simp [processPendingQueue, ho, ih, buildTranscribeRequest]
        · have hb : o.appendOk = false := by
            cases h : o.appendOk
            · rfl
            · exact absurd h ho
          simp [processPendingQueue, hb, ih, buildTranscribeRequest]
  refine ⟨?_, key mode outs st, by rw [key Mode.tab outs st, key Mode.mic outs st]⟩
  rw [key mode outs st]
  rfl

/-! ## Flush frame effect (claim C7) -/

/-- Claim C7: a threshold-reaching ingest leaves `accumulatedMs` at 0 and
the ring exactly as it stands after the fragment's own push — the flush
clears neither the slot contents nor the write position — while the
concatenated ring snapshot is enqueued and the threshold and chunk index
are untouched. -/
theorem flushLeavesRingIntact (s : SessionMemoryState) (chunk : Bytes)
    (now : Nat) (h : s.batchMs ≤ s.accumulatedMs + 3000) :
    (handleAudioChunk s chunk now).accumulatedMs = 0
    ∧ (handleAudioChunk s chunk now).ring = ringPush s.ring chunk
    ∧ (handleAudioChunk s chunk now).pendingBatches
        = bpEnqueue s.maxPending s.pendingBatches
            { audio := (ringToArray (ringPush s.ring chunk)).flatten, timestamp := now }
    ∧ (handleAudioChunk s chunk now).batchMs = s.batchMs
    ∧ (handleAudioChunk s chunk now).dbChunkIndex = s.dbChunkIndex := by
  simp [handleAudioChunk, h]

/-- A concrete session state sitting one fragment short of its threshold. -/
def demoSession : SessionMemoryState :=
  { ring := createRingBuffer 20, batchMs := 30000, lastGeminiLatency := 0,
    pendingBatches := [], maxPending := 3, userId := "u1", mode := Mode.mic,
    dbChunkIndex := 0, accumulatedMs := 27000 }

/-- Witness for C7 on `demoSession`. -/
theorem flushLeavesRingIntact_witness :
    (handleAudioChunk demoSession [7] 5).accumulatedMs = 0
    ∧ (handleAudioChunk demoSession [7] 5).ring = ringPush demoSession.ring [7] :=
  ⟨(flushLeavesRingIntact demoSession [7] 5 (by norm_num [demoSession])).1,
   (flushLeavesRingIntact demoSession [7] 5 (by norm_num [demoSession])).2.1⟩

/-! ## Summary upsert (claim C9) -/

/-- `find?` skips a prefix in which nothing satisfies the predicate. -/
lemma find?_append_of_none {α : Type} (p : α → Bool) {l1 : List α}
    (l2 : List α) (h : l1.find? p = none) :
    (l1 ++ l2).find? p = l2.find? p := by
  induction l1 with
  | nil => rfl
  | cons a l ih =>
      cases hpa : p a
      · have h' : l.find? p = none := by
          rwa [List.find?_cons_of_neg _ (by simp [hpa])] at h
        rw [List.cons_append, List.find?_cons_of_neg _ (by simp [hpa])]
        exact ih h'
      · rw [List.find?_cons_of_pos _ hpa] at h
        exact absurd h (by simp)

/-- `find?` commutes with a map that does not change whether the predicate
holds. -/
lemma find?_map_pred {α β : Type} (f : α → β) (p : β → Bool) (q : α → Bool)
    (hpq : ∀ x, p (f x) = q x) (l : List α) :
    (l.map f).find? p = (l.find? q).map f := by
  induction l with
  | nil => rfl
  | cons a l ih =>
      cases hqa : q a
      · rw [List.map_cons, List.find?_cons_of_neg _ (by simp [hpq, hqa]),
          List.find?_cons_of_neg _ (by simp [hqa])]
        exact ih
      · rw [List.map_cons, List.find?_cons_of_pos _ (by rw [hpq]; exact hqa),
          List.find?_cons_of_pos _ hqa, Option.map_some']

/-- `countP` commutes with a map that does not change whether the predicate
holds. -/
lemma countP_map_pred {α β : Type} (f : α → β) (p : β → Bool) (q : α → Bool)
    (hpq : ∀ x, p (f x) = q x) (l : List α) :
    (l.map f).countP p = l.countP q := by
  induction l with
  | nil => rfl
  | cons a l ih =>
      rw [List.map_cons, List.countP_cons, List.countP_cons, ih, hpq]

/-- Claim C9: starting from a table with no Summary row for the session,
the first stop's upsert creates exactly one row and the second stop's
upsert updates it in place: still exactly one row, no growth, and the
stored text is the second summary. -/
theorem stopSummaryUpsertIdempotent (db : SummaryTable) (sid t1 t2 : String)
    (h : db.countP (fun p => p.1 == sid) = 0) :
    (upsertSummary db sid t1).countP (fun p => p.1 == sid) = 1
    ∧ (upsertSummary (upsertSummary db sid t1) sid t2).countP
        (fun p => p.1 == sid) = 1
    ∧ (upsertSummary (upsertSummary db sid t1) sid t2).length
        = (upsertSummary db sid t1).length
    ∧ (upsertSummary (upsertSummary db sid t1) sid t2).find?
        (fun p => p.1 == sid) = some (sid, t2) := by
  have hfind : db.find? (fun p => p.1 == sid) = none := by
    rw [List.find?_eq_none]
    intro x hx
    have := List.countP_eq_zero.mp h x hx
    simpa using this
  have hdb1 : upsertSummary db sid t1 = db ++ [(sid, t1)] := by
    rw [upsertSummary, hfind]
  have hcount1 : (upsertSummary db sid t1).countP (fun p => p.1 == sid) = 1 := by
    rw [hdb1, List.countP_append, h]
    simp
  have hfind1 : (upsertSummary db sid t1).find? (fun p => p.1 == sid)
      = some (sid, t1) := by
    rw [hdb1, find?_append_of_none _ _ hfind]
    simp
  have hdb2 : upsertSummary (upsertSummary db sid t1) sid t2
      = (upsertSummary db sid t1).map
          (fun p => if p.1 == sid then (p.1, t2) else p) := by
    rw [upsertSummary, hfind1]
  have hpq : ∀ x : String × String,
      ((if x.1 == sid then (x.1, t2) else x).1 == sid) = (x.1 == sid) := by
    intro x
    cases hx : x.1 == sid
    · rw [if_neg (by simp [hx]), hx]
    · rw [if_pos (by simp [hx]), hx]
  refine ⟨hcount1, ?_, ?_, ?_⟩
  · rw [hdb2, countP_map_pred _ _ _ hpq, hcount1]
  · rw [hdb2, List.length_map]
  · rw [hdb2, find?_map_pred _ _ _ hpq, hfind1]
    simp

/-- Witness for C9 starting from the empty table. -/
theorem stopSummaryUpsertIdempotent_witness :
    (upsertSummary (upsertSummary ([] : SummaryTable) "s1" "first") "s1"
        "second").countP (fun p => p.1 == "s1") = 1
    ∧ (upsertSummary (upsertSummary ([] : SummaryTable) "s1" "first") "s1"
        "second").find? (fun p => p.1 == "s1") = some ("s1", "second") :=
  ⟨(stopSummaryUpsertIdempotent [] "s1" "first" "second" rfl).2.1,
   (stopSummaryUpsertIdempotent [] "s1" "first" "second" rfl).2.2.2⟩

/-! ## Unknown-session ingest (claim C10) -/

/-- Claim C10: an `audio_chunk` event whose session id is not in the
in-memory map returns with the map unchanged and no outbound event — the
fragment is silently dropped. -/
theorem unknownSessionIngestIgnored (sessions : SessionsMap) (sid : String)
    (chunk : Bytes) (now : Nat)
    (h : sessions.find? (fun p => p.1 == sid) = none) :
    audioChunkEvent sessions sid chunk now = (sessions, []) := by
  rw [audioChunkEvent, h]

/-- Witness for C10: ingest for a session id with no in-memory state. -/
theorem unknownSessionIngestIgnored_witness :
    audioChunkEvent [("live", demoSession)] "ghost" [1] 0
      = ([("live", demoSession)], []) :=
  unknownSessionIngestIgnored [("live", demoSession)] "ghost" [1] 0 rfl

/-! ## Concurrent drains (claim C1) -/

/-- Claim C1 fails on the code: because line 380 invokes
`processPendingQueue` on every flush with no per-session drain guard, a
state with two simultaneously active drain loops and a non-empty queue —
which both loops are poised to `shift()` — is reachable.  The trace is:
flush (drain 1 starts), drain 1 shifts and suspends awaiting
transcription, second flush (drain 2 starts while drain 1 is still
active). -/
theorem twoConcurrentDrainsReachable :
    DispatchReachable { pendingBatches := [⟨[2], 1⟩], activeDrains := 2 }
    ∧ 2 ≤ (DispatchState.mk [⟨[2], 1⟩] 2).activeDrains
    ∧ (DispatchState.mk [⟨[2], 1⟩] 2).pendingBatches ≠ [] := by
  refine ⟨?_, by norm_num, by simp⟩
  have s1 : DispatchStep ⟨[], 0⟩ ⟨[⟨[1], 0⟩], 1⟩ := by
    have h := DispatchStep.flush ⟨[], 0⟩ ⟨[1], 0⟩
    simpa [bpEnqueue] using h
  have s2 : DispatchStep ⟨[⟨[1], 0⟩], 1⟩ ⟨[], 1⟩ := by
    have h := DispatchStep.drainShift ⟨[⟨[1], 0⟩], 1⟩ (by norm_num) (by simp)
    simpa using h
  have s3 : DispatchStep ⟨[], 1⟩ ⟨[⟨[2], 1⟩], 2⟩ := by
    have h := DispatchStep.flush ⟨[], 1⟩ ⟨[2], 1⟩
    simpa [bpEnqueue] using h
  exact Relation.ReflTransGen.head s1 (Relation.ReflTransGen.head s2
    (Relation.ReflTransGen.single s3))

/-! ## Ring buffer (claims C5) -/

/-- Well-formedness of a ring of capacity `N`: the slot list has exactly
`N` entries and the write index is in range. -/
def RingWF (N : Nat) (r : RingBuffer) : Prop :=
  r.capacity = N ∧ r.data.length = N ∧ r.index < N

lemma ringToArray_eq_filter (r : RingBuffer) :
    ringToArray r = (ringReadout r).filter (fun c => decide (0 < c.length)) := rfl

lemma createRingBuffer_wf (N : Nat) (hN : 0 < N) :
    RingWF N (createRingBuffer N) :=
  ⟨rfl, List.length_replicate .., hN⟩

lemma ringPush_wf {N : Nat} {r : RingBuffer} (hN : 0 < N) (h : RingWF N r)
    (v : Bytes) : RingWF N (ringPush r v) := by
  obtain ⟨hc, hl, hi⟩ := h
  refine ⟨hc, ?_, ?_⟩
  · show (r.data.set r.index v).length = N
    rw [List.length_set]
    exact hl
  · show (r.index + 1) % r.capacity < N
    rw [hc]
    exact Nat.mod_lt _ hN

/-- The slot read-out is the rotation of the slot list at the write
index. -/
lemma ringReadout_eq_rotate {N : Nat} {r : RingBuffer} (h : RingWF N r) :
    ringReadout r = r.data.drop r.index ++ r.data.take r.index := by
  obtain ⟨hc, hl, hi⟩ := h
  apply List.ext_getElem
  · simp [ringReadout, hc, hl]
    omega
  · intro i h1 h2
    have hiN : i < N := by simpa [ringReadout, hc] using h1
    simp only [ringReadout, List.getElem_map, List.getElem_range, hc]
    have hdroplen : (r.data.drop r.index).length = N - r.index := by
      rw [List.length_drop, hl]
    rcases Nat.lt_or_ge i (N - r.index) with hcase | hcase
    · have hmod : (r.index + i) % N = r.index + i :=
        Nat.mod_eq_of_lt (by omega)
      rw [hmod, List.getElem_append_left (by omega), List.getElem_drop]
      exact List.getD_eq_getElem r.data [] (by omega)
    · have hmod : (r.index + i) % N = i - (N - r.index) := by
        rw [Nat.mod_eq_sub_mod (by omega), Nat.mod_eq_of_lt (by omega)]
        omega
      rw [hmod, List.getElem_append_right (by omega)]
      simp only [hdroplen, List.getElem_take]
      exact List.getD_eq_getElem r.data [] (by omega)

/-- Pushing rotates the read-out forward by one slot and writes the new
value at its end: the overwritten slot was the oldest in read-out
order. -/
lemma ringReadout_push {N : Nat} {r : RingBuffer} (hN : 0 < N)
    (h : RingWF N r) (v : Bytes) :
    ringReadout (ringPush r v) = (ringReadout r).drop 1 ++ [v] := by
  obtain ⟨hc, hl, hi⟩ := h
  have hwf' := ringPush_wf hN ⟨hc, hl, hi⟩ v
  rw [ringReadout_eq_rotate hwf', ringReadout_eq_rotate ⟨hc, hl, hi⟩]
  show (r.data.set r.index v).drop ((r.index + 1) % r.capacity)
      ++ (r.data.set r.index v).take ((r.index + 1) % r.capacity)
    = (r.data.drop r.index ++ r.data.take r.index).drop 1 ++ [v]
  rw [hc]
  have hset : r.data.set r.index v
      = r.data.take r.index ++ v :: r.data.drop (r.index + 1) :=
    List.set_eq_take_cons_drop v (by omega)
  have hTlen : (r.data.take r.index).length = r.index := by
    rw [List.length_take, hl]
    omega
  have hRHS : (r.data.drop r.index ++ r.data.take r.index).drop 1
      = r.data.drop (r.index + 1) ++ r.data.take r.index := by
    rw [List.drop_append_eq_append_drop]
    have h4 : (1 : Nat) - (r.data.drop r.index).length = 0 := by
      rw [List.length_drop, hl]
      omega
    rw [h4, List.drop_zero, List.drop_drop]
  rw [hRHS]
  rcases Nat.lt_or_ge (r.index + 1) N with hlt | hge
  · rw [Nat.mod_eq_of_lt hlt, hset]
    rw [List.drop_append_eq_append_drop, List.take_append_eq_append_take]
    rw [hTlen]
    have hdropT : (r.data.take r.index).drop (r.index + 1) = [] :=
      List.drop_eq_nil_of_le (by omega)
    have htakeT : (r.data.take r.index).take (r.index + 1)
        = r.data.take r.index :=
      List.take_of_length_le (by omega)
    rw [hdropT, htakeT]
    have h5 : r.index + 1 - r.index = 1 := by omega
    rw [h5]
    simp
  · have hNidx : r.index + 1 = N := by omega
    rw [hNidx, Nat.mod_self, List.drop_zero, List.take_zero, List.append_nil]
    rw [hset, hNidx]
    have hdropN : r.data.drop N = [] := List.drop_eq_nil_of_le (by omega)
    rw [hdropN]
    simp

/-- Every fold of pushes from a fresh ring is well-formed. -/
lemma ringFold_wf (N : Nat) (hN : 0 < N) (xs : List Bytes) :
    RingWF N (List.foldl ringPush (createRingBuffer N) xs) := by
  suffices h : ∀ (l : List Bytes) (r : RingBuffer), RingWF N r →
      RingWF N (List.foldl ringPush r l) from
    h xs (createRingBuffer N) (createRingBuffer_wf N hN)
  intro l
  induction l with
  | nil => intro r hr; exact hr
  | cons x l ih =>
      intro r hr
      exact ih (ringPush r x) (ringPush_wf hN hr x)

/-- After pushing `xs` into a fresh ring of capacity `N`, the read-out is
`N - |xs|` still-empty slots followed by the last `min(|xs|, N)` pushed
fragments in chronological order. -/
lemma ringFold_readout (N : Nat) (hN : 0 < N) (xs : List Bytes) :
    ringReadout (List.foldl ringPush (createRingBuffer N) xs)
      = List.replicate (N - xs.length) [] ++ xs.drop (xs.length - N) := by
  induction xs using List.reverseRecOn with
  | nil =>
      rw [List.foldl_nil, ringReadout_eq_rotate (createRingBuffer_wf N hN)]
      simp [createRingBuffer]
  | append_singleton ys y ih =>
      rw [List.foldl_append, List.foldl_cons, List.foldl_nil]
      rw [ringReadout_push hN (ringFold_wf N hN ys) y, ih]
      rcases Nat.lt_or_ge ys.length N with hlt | hge
      · have h1 : ys.length - N = 0 := by omega
        have h2 : (ys ++ [y]).length - N = 0 := by
          rw [List.length_append]
          simp
          omega
        rw [h1, h2, List.drop_zero, List.drop_zero]
        rw [List.drop_append_eq_append_drop]
        have h4 : (1 : Nat) - (List.replicate (N - ys.length) ([] : Bytes)).length
            = 0 := by
          rw [List.length_replicate]
          omega
        rw [h4, List.drop_zero, List.drop_replicate]
        have h5 : N - ys.length - 1 = N - (ys ++ [y]).length := by
          rw [List.length_append]
          simp
          omega
        rw [h5, List.append_assoc]
      · have h1 : N - ys.length = 0 := by omega
        have h2 : N - (ys ++ [y]).length = 0 := by
          rw [List.length_append]
          omega
        rw [h1, h2, List.replicate_zero, List.nil_append, List.nil_append]
        rw [List.drop_drop]
        have h3 : (ys ++ [y]).length - N = (ys.length - N) + 1 := by
          rw [List.length_append]
          simp
          omega
        rw [h3, List.drop_append_eq_append_drop]
        have h4 : ys.length - N + 1 - ys.length = 0 := by omega
        rw [h4, List.drop_zero]

/-- Counterexample to C5 as stated: push an empty fragment and then a
non-empty one into a fresh default-capacity ring (N = 20).  The snapshot
is `[[1]]`, not the most recent `min(pushCount, N) = 2` pushed fragments
`[[], [1]]`: the retained empty fragment is filtered out. -/
theorem ringSnapshot_counterexample :
    ringToArray (List.foldl ringPush (createRingBuffer 20) [[], [1]]) = [[1]]
    ∧ ringToArray (List.foldl ringPush (createRingBuffer 20) [[], [1]])
        ≠ [[], [1]] := by
  constructor <;> decide

/-- Amended C5: for every push sequence into a fresh ring of capacity
`N > 0`, the slot count stays exactly `N` (occupancy never exceeds `N`),
and the snapshot — a pure function of the ring — returns the non-empty
fragments among the most recent `min(pushCount, N)` pushed fragments, in
chronological oldest-to-newest order, hence has length at most `N`. -/
theorem ringSnapshotSpec (N : Nat) (hN : 0 < N) (xs : List Bytes) :
    ringToArray (List.foldl ringPush (createRingBuffer N) xs)
        = (xs.drop (xs.length - N)).filter (fun c => decide (0 < c.length))
    ∧ (ringToArray (List.foldl ringPush (createRingBuffer N) xs)).length ≤ N
    ∧ (List.foldl ringPush (createRingBuffer N) xs).data.length = N
    ∧ (List.foldl ringPush (createRingBuffer N) xs).capacity = N := by
  have hwf := ringFold_wf N hN xs
  have hta : ringToArray (List.foldl ringPush (createRingBuffer N) xs)
      = (xs.drop (xs.length - N)).filter (fun c => decide (0 < c.length)) := by
    rw [ringToArray_eq_filter, ringFold_readout N hN xs, List.filter_append]
    simp
  refine ⟨hta, ?_, hwf.2.1, hwf.1⟩
  rw [hta]
  calc ((xs.drop (xs.length - N)).filter
          (fun c => decide (0 < c.length))).length
      ≤ (xs.drop (xs.length - N)).length := List.length_filter_le _ _
    _ ≤ N := by
        rw [List.length_drop]
        omega

/-- Witness for amended C5 at `N = 20` with one non-empty and one empty
push. -/
theorem ringSnapshotSpec_witness :
    ringToArray (List.foldl ringPush (createRingBuffer 20) [[3], []]) = [[3]]
    ∧ (ringToArray (List.foldl ringPush (createRingBuffer 20) [[3], []])).length
        ≤ 20 := by
  have h := ringSnapshotSpec 20 (by norm_num) [[3], []]
  exact ⟨by rw [h.1]; decide, h.2.1⟩

end ScriberAI
